import Mathlib

/-!
Verification of the string-analyzer HTTP service (Express/Node) against its
specification.  The JavaScript source (`src/server.js` and its near-duplicate
variant `src/unnamed/part_001`) is shallowly embedded below: pure helpers
become Lean functions on `String`/`List Char`, the in-memory `Map` store
becomes a `List` of records (JS `Map` preserves insertion order), request
handlers become explicit state-passing functions, and the two regular
expressions used by the natural-language parser are embedded as direct
backtracking matchers with JavaScript leftmost-match semantics.

Unicode scope: the JS `toLowerCase` is modelled by its ASCII action (the only
case mappings the claims exercise); `\s` is modelled by the ASCII whitespace
characters.  JS `Number` coercion is modelled with exact rational arithmetic
(IEEE-754 rounding of enormous literals is out of scope; overflow to
Infinity is modelled).
-/

namespace StrAnalyzer

/-! ## Character helpers (ASCII fragment of the JS semantics) -/

/-- ASCII action of JavaScript `String.prototype.toLowerCase`. -/
def jsLower (c : Char) : Char :=
  if 'A' ≤ c ∧ c ≤ 'Z' then Char.ofNat (c.toNat + 32) else c

/-- Membership in the regex class `[a-z0-9]` (after lowering). -/
def isLowerAlnum (c : Char) : Bool :=
  ('a' ≤ c ∧ c ≤ 'z') ∨ ('0' ≤ c ∧ c ≤ '9')

/-- Membership in the regex class `[a-z]`. -/
def isLowerAlpha (c : Char) : Bool :=
  'a' ≤ c ∧ c ≤ 'z'

/-- Membership in the regex class `\d`. -/
def isDigitChar (c : Char) : Bool :=
  '0' ≤ c ∧ c ≤ '9'

/-- ASCII fragment of the JS whitespace class `\s` (also what `trim` strips):
space, tab, line feed, vertical tab, form feed, carriage return. -/
def isWsChar (c : Char) : Bool :=
  c = ' ' ∨ c = '\t' ∨ c = '\n' ∨ c = Char.ofNat 11 ∨ c = Char.ofNat 12 ∨ c = '\r'

/-- Lowercase a whole character list, as `value.toLowerCase()` does. -/
def lowerList (cs : List Char) : List Char := cs.map jsLower

/-! ## Property computer (`src/server.js` lines 19–48) -/

/-- `isPalindrome(value)`: lowercase, strip everything outside `[a-z0-9]`
(the `replace(/[^a-z0-9]/g, '')`), and compare with the reversal. -/
def isPalindrome (value : String) : Bool :=
  let cleaned := (lowerList value.data).filter isLowerAlnum
  cleaned == cleaned.reverse

/-- `countUniqueCharacters(value)`: `new Set(value).size`, the number of
distinct characters of the raw value. -/
def countUniqueCharacters (value : String) : Nat :=
  value.data.eraseDups.length

/-- Worker for `wsTokens`: `acc` holds the characters of the current run in
reverse; a token is emitted at each whitespace boundary and at the end. -/
def wsTokensGo : List Char → List Char → List (List Char)
  | [], acc => if acc.isEmpty then [] else [acc.reverse]
  | c :: cs, acc =>
    if isWsChar c then
      if acc.isEmpty then wsTokensGo cs [] else acc.reverse :: wsTokensGo cs []
    else wsTokensGo cs (c :: acc)

/-- Split a character list into the maximal runs of non-whitespace
characters (the nonempty fields of `split(/\s+/)`). -/
def wsTokens (l : List Char) : List (List Char) :=
  wsTokensGo l []

/-- `value.trim()`: drop leading and trailing whitespace. -/
def jsTrim (cs : List Char) : List Char :=
  ((cs.dropWhile isWsChar).reverse.dropWhile isWsChar).reverse

/-- `countWords(value)`: trim, split on whitespace runs, keep the nonempty
tokens, count.  On the trimmed string the fields of `split(/\s+/)` are
exactly the maximal non-whitespace runs, except that the empty input
yields one empty field, removed by the `filter(w => w.length > 0)`. -/
def countWords (value : String) : Nat :=
  ((wsTokens (jsTrim value.data)).filter (fun t => t.length > 0)).length

/-- `createCharacterFrequencyMap(value)`: per-character occurrence counts,
keyed in first-occurrence order like a JS object literal. -/
def createCharacterFrequencyMap (value : String) : List (Char × Nat) :=
  value.data.eraseDups.map (fun c => (c, value.data.count c))

/-! ## Substring and regex matching

The natural-language endpoint uses `String.prototype.includes` and two
regular expressions, `/longer than (\d+)/` and
`/contains? (?:the letter|character)? ([a-z])/` (note: a mandatory space
follows `contains?` and another mandatory space precedes `([a-z])`).  They
are embedded as leftmost-match scanners with the ordered-alternative
backtracking a JS regex engine performs. -/

/-- Match the literal `pat` at the head of `cs`, returning the remainder. -/
def dropLit (pat cs : List Char) : Option (List Char) :=
  match pat, cs with
  | [], rest => some rest
  | _ :: _, [] => none
  | p :: ps, c :: rest => if c = p then dropLit ps rest else none

/-- `haystack.includes(needle)` on character lists. -/
def includesSub (needle haystack : List Char) : Bool :=
  match haystack with
  | [] => needle.isEmpty
  | _ :: tl => (dropLit needle haystack).isSome || includesSub needle tl

/-- Numeric value of a digit list (the JS `Number` of a captured `\d+`). -/
def natOfDigits (ds : List Char) : Nat :=
  ds.foldl (fun acc d => acc * 10 + (d.toNat - '0'.toNat)) 0

/-- Attempt `/longer than (\d+)/` anchored at the head of `cs`: the literal
`"longer than "` followed by at least one digit, the capture being the
maximal (greedy) digit run. -/
def tryLongerAt (cs : List Char) : Option Nat :=
  match dropLit "longer than ".data cs with
  | none => none
  | some rest =>
    let ds := rest.takeWhile isDigitChar
    if ds.isEmpty then none else some (natOfDigits ds)

/-- Leftmost match of `/longer than (\d+)/`, returning the captured number. -/
def findLonger : List Char → Option Nat
  | [] => none
  | c :: cs =>
    match tryLongerAt (c :: cs) with
    | some n => some n
    | none => findLonger cs

/-- Attempt `(?:the letter|character)? ([a-z])` anchored at the head of
`cs`, trying the alternatives in the engine's order: `"the letter"`, then
`"character"`, then the empty option, each followed by a mandatory space
and a lowercase letter (the capture). -/
def tryContainsTail (cs : List Char) : Option Char :=
  let after : List Char → Option Char := fun rest =>
    match rest with
    | ' ' :: c :: _ => if isLowerAlpha c then some c else none
    | _ => none
  match dropLit "the letter".data cs with
  | some rest =>
    match after rest with
    | some c => some c
    | none =>
      match dropLit "character".data cs with
      | some rest2 =>
        match after rest2 with
        | some c => some c
        | none => after cs
      | none => after cs
  | none =>
    match dropLit "character".data cs with
    | some rest2 =>
      match after rest2 with
      | some c => some c
      | none => after cs
    | none => after cs

/-- Attempt `/contains? (?:the letter|character)? ([a-z])/` anchored at the
head of `cs`: the literal `contain`, a greedy optional `s`, a mandatory
space, then the tail pattern. -/
def tryContainsAt (cs : List Char) : Option Char :=
  match dropLit "contain".data cs with
  | none => none
  | some rest =>
    match rest with
    | 's' :: ' ' :: r2 =>
      match tryContainsTail r2 with
      | some c => some c
      | none => none
    | ' ' :: r2 => tryContainsTail r2
    | _ => none

/-- Leftmost match of the contains-letter regex, returning the capture. -/
def findContains : List Char → Option Char
  | [] => none
  | c :: cs =>
    match tryContainsAt (c :: cs) with
    | some x => some x
    | none => findContains cs

/-! ## Natural-language filter parser
(`GET /strings/filter-by-natural-language`, `src/server.js` lines 210–221) -/

/-- The `parsed` object the natural-language endpoint builds: each field is
present (`some`) exactly when the corresponding cue fired. -/
structure ParsedFilters where
  is_palindrome : Option Bool
  word_count : Option Nat
  min_length : Option Nat
  contains_character : Option Char
deriving Repr, DecidableEq

/-- The four cue checks of the endpoint, run on the lowercased query:
`includes('palindrom')`, `includes('single word')`,
`match(/longer than (\d+)/)` (setting `min_length` to the number plus one),
and `match(/contains? (?:the letter|character)? ([a-z])/)`. -/
def parseNLQuery (q : String) : ParsedFilters :=
  let l := lowerList q.data
  { is_palindrome := if includesSub "palindrom".data l then some true else none
    word_count := if includesSub "single word".data l then some 1 else none
    min_length := (findLonger l).map (· + 1)
    contains_character := findContains l }

/-- `Object.keys(parsed).length === 0`: no cue fired. -/
def ParsedFilters.isEmpty (p : ParsedFilters) : Bool :=
  p.is_palindrome.isNone && p.word_count.isNone &&
    p.min_length.isNone && p.contains_character.isNone

/-! ## SHA-256 (`crypto.createHash('sha256').update(value).digest('hex')`)

A direct executable implementation of FIPS 180-4 over byte lists, with all
32-bit machine arithmetic written as `Nat` operations reduced mod `2^32`. -/

/-- Truncate to a 32-bit word. -/
def u32 (x : Nat) : Nat := x % 4294967296

/-- 32-bit right rotation. -/
def rotr32 (n x : Nat) : Nat := u32 ((x >>> n) ||| (x <<< (32 - n)))

/-- The 64 SHA-256 round constants (FIPS 180-4 §4.2.2, written in
decimal). -/
def shaK : List Nat :=
  [1116352408, 1899447441, 3049323471, 3921009573, 961987163, 1508970993,
   2453635748, 2870763221, 3624381080, 310598401, 607225278, 1426881987,
   1925078388, 2162078206, 2614888103, 3248222580, 3835390401, 4022224774,
   264347078, 604807628, 770255983, 1249150122, 1555081692, 1996064986,
   2554220882, 2821834349, 2952996808, 3210313671, 3336571891, 3584528711,
   113926993, 338241895, 666307205, 773529912, 1294757372, 1396182291,
   1695183700, 1986661051, 2177026350, 2456956037, 2730485921, 2820302411,
   3259730800, 3345764771, 3516065817, 3600352804, 4094571909, 275423344,
   430227734, 506948616, 659060556, 883997877, 958139571, 1322822218,
   1537002063, 1747873779, 1955562222, 2024104815, 2227730452, 2361852424,
   2428436474, 2756734187, 3204031479, 3329325298]

/-- The SHA-256 initial hash words (FIPS 180-4 §5.3.3, in decimal). -/
def shaH0 : List Nat :=
  [1779033703, 3144134277, 1013904242, 2773480762,
   1359893119, 2600822924, 528734635, 1541459225]

/-- Pad a byte message: append `0x80`, zeros to 56 mod 64, and the bit
length as 8 big-endian bytes. -/
def shaPad (msg : List Nat) : List Nat :=
  let len := msg.length
  let zeros := (64 + 55 - (len % 64)) % 64
  let bitLen := len * 8
  msg ++ [0x80] ++ List.replicate zeros 0 ++
    ((List.range 8).reverse.map (fun i => (bitLen >>> (8 * i)) % 256))

/-- Group bytes into big-endian 32-bit words. -/
def bytesToWords : List Nat → List Nat
  | b0 :: b1 :: b2 :: b3 :: rest => (((b0 * 256 + b1) * 256 + b2) * 256 + b3) :: bytesToWords rest
  | _ => []

/-- Worker for `chunk64`: `acc` holds the bytes of the current block in
reverse. -/
def chunk64Go : List Nat → List Nat → List (List Nat)
  | [], acc => if acc.isEmpty then [] else [acc.reverse]
  | b :: bs, acc =>
    let acc2 := b :: acc
    if acc2.length == 64 then acc2.reverse :: chunk64Go bs []
    else chunk64Go bs acc2

/-- Split a byte list into 64-byte blocks. -/
def chunk64 (l : List Nat) : List (List Nat) :=
  chunk64Go l []

/-- Extend the 16 message words of one block to the 64-entry schedule. -/
def shaSchedule (ws : List Nat) : Array Nat :=
  (List.range 48).foldl
    (fun w j =>
      let i := j + 16
      let w15 := w.getD (i - 15) 0
      let w2 := w.getD (i - 2) 0
      let s0 := (rotr32 7 w15) ^^^ (rotr32 18 w15) ^^^ (w15 >>> 3)
      let s1 := (rotr32 17 w2) ^^^ (rotr32 19 w2) ^^^ (w2 >>> 10)
      w.push (u32 (w.getD (i - 16) 0 + s0 + w.getD (i - 7) 0 + s1)))
    ws.toArray

/-- The working variables of the compression loop. -/
structure ShaState where
  a : Nat
  b : Nat
  c : Nat
  d : Nat
  e : Nat
  f : Nat
  g : Nat
  h : Nat
deriving Repr

/-- One round of the SHA-256 compression function. -/
def shaRound (w : Array Nat) (st : ShaState) (i : Nat) : ShaState :=
  let s1 := (rotr32 6 st.e) ^^^ (rotr32 11 st.e) ^^^ (rotr32 25 st.e)
  let ch := (st.e &&& st.f) ^^^ ((4294967295 - st.e) &&& st.g)
  let t1 := u32 (st.h + s1 + ch + shaK.getD i 0 + w.getD i 0)
  let s0 := (rotr32 2 st.a) ^^^ (rotr32 13 st.a) ^^^ (rotr32 22 st.a)
  let mj := (st.a &&& st.b) ^^^ (st.a &&& st.c) ^^^ (st.b &&& st.c)
  let t2 := u32 (s0 + mj)
  { a := u32 (t1 + t2), b := st.a, c := st.b, d := st.c,
    e := u32 (st.d + t1), f := st.e, g := st.f, h := st.g }

/-- Compress one 64-byte block into the running hash words. -/
def shaCompress (hw : List Nat) (block : List Nat) : List Nat :=
  let w := shaSchedule (bytesToWords block)
  match hw with
  | [h0, h1, h2, h3, h4, h5, h6, h7] =>
    let st0 : ShaState := ⟨h0, h1, h2, h3, h4, h5, h6, h7⟩
    let st := (List.range 64).foldl (shaRound w) st0
    [u32 (h0 + st.a), u32 (h1 + st.b), u32 (h2 + st.c), u32 (h3 + st.d),
     u32 (h4 + st.e), u32 (h5 + st.f), u32 (h6 + st.g), u32 (h7 + st.h)]
  | other => other

/-- SHA-256 of a byte message, as eight 32-bit words. -/
def sha256Words (msg : List Nat) : List Nat :=
  (chunk64 (shaPad msg)).foldl shaCompress shaH0

/-- Lowercase hex digit. -/
def hexDigit (n : Nat) : Char :=
  if n < 10 then Char.ofNat ('0'.toNat + n) else Char.ofNat ('a'.toNat + n - 10)

/-- Eight-hex-digit rendering of a 32-bit word. -/
def wordToHex (x : Nat) : List Char :=
  (List.range 8).reverse.map (fun i => hexDigit ((x >>> (4 * i)) % 16))

/-- UTF-8 encoding of one character (what `hash.update(value)` hashes). -/
def utf8Char (c : Char) : List Nat :=
  let n := c.toNat
  if n < 0x80 then [n]
  else if n < 0x800 then [0xc0 ||| (n >>> 6), 0x80 ||| (n % 64)]
  else if n < 0x10000 then
    [0xe0 ||| (n >>> 12), 0x80 ||| ((n >>> 6) % 64), 0x80 ||| (n % 64)]
  else
    [0xf0 ||| (n >>> 18), 0x80 ||| ((n >>> 12) % 64),
     0x80 ||| ((n >>> 6) % 64), 0x80 ||| (n % 64)]

/-- UTF-8 bytes of a string. -/
def utf8Bytes (s : String) : List Nat := s.data.flatMap utf8Char

/-- `calculateHash(value)`: hex-encoded SHA-256 digest of the value. -/
def calculateHash (value : String) : String :=
  ⟨(sha256Words (utf8Bytes value)).flatMap wordToHex⟩

/-! ## JS `Number` coercion of strings

`GET /strings` validates numeric parameters with
`isNaN(x) || !Number.isInteger(Number(x))`.  `Number(string)` follows the
ECMAScript StringNumericLiteral grammar: trimmed empty input is `0`; a
hex/octal/binary prefix is an unsigned integer literal; otherwise an
optional sign, then `Infinity` or a decimal literal with optional fraction
and exponent.  The mathematical value of the literal is computed as an
exact rational and then rounded to the nearest IEEE-754 binary64 value
with ties to even, exactly as `Number` does: overlong mantissas round
(`"1.0000000000000000001"` is exactly 1, `"9007199254740993"` rounds to
9007199254740992), magnitudes beyond the binary64 range become an
infinity, and tiny magnitudes underflow through subnormals to zero. -/

inductive JsNum where
  | nan : JsNum
  | inf (neg : Bool) : JsNum
  | val (q : ℚ) : JsNum
deriving Repr, DecidableEq

/-- Value of a hex digit, if any. -/
def hexDigitVal (c : Char) : Option Nat :=
  if '0' ≤ c ∧ c ≤ '9' then some (c.toNat - '0'.toNat)
  else if 'a' ≤ c ∧ c ≤ 'f' then some (c.toNat - 'a'.toNat + 10)
  else if 'A' ≤ c ∧ c ≤ 'F' then some (c.toNat - 'A'.toNat + 10)
  else none

/-- Digits of a nonempty radix literal, most significant first. -/
def radixVal (radix : Nat) (cs : List Char) : Option Nat :=
  match cs with
  | [] => none
  | _ =>
    cs.foldl
      (fun acc c =>
        match acc, hexDigitVal c with
        | some a, some d => if d < radix then some (a * radix + d) else none
        | _, _ => none)
      (some 0)

/-- `10^e` over ℚ for a signed exponent. -/
def pow10 (e : Int) : ℚ :=
  if 0 ≤ e then ((10 : ℚ) ^ e.toNat) else 1 / ((10 : ℚ) ^ (-e).toNat)

/-- Parse the optional exponent part (`e`/`E`, optional sign, digits),
which must consume the remaining input. -/
def parseExponent (cs : List Char) : Option Int :=
  match cs with
  | [] => some 0
  | e :: r =>
    if e = 'e' ∨ e = 'E' then
      let (sgn, r2) : Int × List Char :=
        match r with
        | '+' :: t => (1, t)
        | '-' :: t => (-1, t)
        | t => (1, t)
      let ds := r2.takeWhile isDigitChar
      if ds.isEmpty ∨ ¬ (r2.drop ds.length).isEmpty then none
      else some (sgn * (natOfDigits ds : Int))
    else none

/-- Parse a signed decimal literal `digits [. digits] [exp]` or
`. digits [exp]`, consuming all input. -/
def parseDecimal (cs : List Char) : Option ℚ :=
  let (sgn, body) : ℚ × List Char :=
    match cs with
    | '+' :: t => (1, t)
    | '-' :: t => (-1, t)
    | t => (1, t)
  let ip := body.takeWhile isDigitChar
  let r1 := body.drop ip.length
  let cont : List Char → List Char → List Char → Option ℚ := fun ipart fpart rest =>
    if ipart.isEmpty ∧ fpart.isEmpty then none
    else
      match parseExponent rest with
      | none => none
      | some e =>
        let mant : ℚ := (natOfDigits ipart : ℚ) +
          (natOfDigits fpart : ℚ) / ((10 : ℚ) ^ fpart.length)
        some (sgn * mant * pow10 e)
  match r1 with
  | '.' :: r2 =>
    let fp := r2.takeWhile isDigitChar
    cont ip fp (r2.drop fp.length)
  | _ => cont ip [] r1

/-- `2^e` over ℚ for a signed exponent. -/
def qpow2 (e : Int) : ℚ :=
  if 0 ≤ e then ((2 : ℚ) ^ e.toNat) else 1 / ((2 : ℚ) ^ (-e).toNat)

/-- Round a rational to the nearest integer, ties to even. -/
def roundTiesEven (q : ℚ) : Int :=
  let fl : Int := ⌊q⌋
  let frac : ℚ := q - (fl : ℚ)
  if frac < 1 / 2 then fl
  else if 1 / 2 < frac then fl + 1
  else if fl % 2 = 0 then fl else fl + 1

/-- The binary exponent of a positive rational: the `e` with
`2^e ≤ q < 2^(e+1)`, located from the bit lengths of numerator and
denominator and one comparison. -/
def ratLog2 (q : ℚ) : Int :=
  let k : Int := (Nat.log2 q.num.natAbs : Int) - (Nat.log2 q.den : Int)
  if qpow2 k ≤ q then k else k - 1

/-- Round a rational to the nearest IEEE-754 binary64 value, ties to even,
returning the exact rational value of the resulting double; `none` means
overflow to an infinity.  Normal values carry a 53-bit mantissa scaled by
`2^(e-52)`; below `2^-1022` the quantum is fixed at `2^-1074` (subnormals,
underflowing to zero); a magnitude that rounds to `2^1024` or beyond is an
infinity. -/
def roundToFloat64 (q : ℚ) : Option ℚ :=
  if q = 0 then some 0
  else
    let a := |q|
    let sgn : ℚ := if q < 0 then -1 else 1
    let e := ratLog2 a
    if e < -1022 then
      some (sgn * (roundTiesEven (a * qpow2 1074) : ℚ) * qpow2 (-1074))
    else if 1023 < e then none
    else
      let m := roundTiesEven (a * qpow2 (52 - e))
      if m = 2 ^ 53 ∧ e = 1023 then none
      else some (sgn * (m : ℚ) * qpow2 (e - 52))

/-- The `JsNum` of an exact literal value: its binary64 rounding, or the
signed infinity on overflow. -/
def finalizeNum (q : ℚ) : JsNum :=
  match roundToFloat64 q with
  | some v => .val v
  | none => .inf (q < 0)

/-- `Number(s)` for a string argument. -/
def jsNumber (s : String) : JsNum :=
  let cs := jsTrim s.data
  match cs with
  | [] => .val 0
  | '0' :: x :: rest =>
    if x = 'x' ∨ x = 'X' then
      match radixVal 16 rest with
      | some n => finalizeNum (n : ℚ)
      | none => .nan
    else if x = 'o' ∨ x = 'O' then
      match radixVal 8 rest with
      | some n => finalizeNum (n : ℚ)
      | none => .nan
    else if x = 'b' ∨ x = 'B' then
      match radixVal 2 rest with
      | some n => finalizeNum (n : ℚ)
      | none => .nan
    else
      match parseDecimal cs with
      | some q => finalizeNum q
      | none => .nan
  | _ =>
    if cs = "infinity".data then .nan
    else if cs = "Infinity".data ∨ cs = "+Infinity".data then .inf false
    else if cs = "-Infinity".data then .inf true
    else
      match parseDecimal cs with
      | some q => finalizeNum q
      | none => .nan

/-- `isNaN(s)` for a string: its `Number` coercion is NaN. -/
def jsIsNaNStr (s : String) : Bool :=
  jsNumber s = JsNum.nan

/-- `Number.isInteger` applied to a coerced number. -/
def JsNum.isIntegerVal : JsNum → Bool
  | .val q => q.den = 1
  | _ => false

/-- The integer behind a `JsNum` known to be integral (0 otherwise). -/
def JsNum.toInt : JsNum → Int
  | .val q => q.num
  | _ => 0

/-! ## Data model and store (`src/server.js` lines 39–106) -/

/-- The `properties` bundle `computeStringProperties` builds. -/
structure StringProperties where
  length : Nat
  is_palindrome : Bool
  unique_characters : Nat
  word_count : Nat
  sha256_hash : String
  character_frequency_map : List (Char × Nat)
deriving Repr, DecidableEq

/-- `computeStringProperties(value)`. -/
def computeStringProperties (value : String) : StringProperties :=
  { length := value.length
    is_palindrome := isPalindrome value
    unique_characters := countUniqueCharacters value
    word_count := countWords value
    sha256_hash := calculateHash value
    character_frequency_map := createCharacterFrequencyMap value }

/-- A stored document: `{_id, value, properties, created_at}`.  Timestamps
are abstract instants supplied to the handler (`new Date()`). -/
structure StringRecord where
  id : String
  value : String
  properties : StringProperties
  created_at : Nat
deriving Repr, DecidableEq

/-- The in-memory store: a JS `Map` in insertion order. -/
abbrev Store := List StringRecord

/-- `inMemoryStore.set(doc._id, doc)`: replace in place if the key exists
(keeping its position), otherwise append. -/
def mapSet (store : Store) (doc : StringRecord) : Store :=
  if store.any (fun x => x.id == doc.id) then
    store.map (fun x => if x.id == doc.id then doc else x)
  else store ++ [doc]

/-- The query object handed to `db.find`: the `properties.is_palindrome`,
`properties.word_count`, `properties.length.$gte/$lte` entries and the
case-insensitive single-character `value.$regex`. -/
structure MongoQuery where
  pal : Option Bool
  wc : Option Int
  gte : Option Int
  lte : Option Int
  regexChar : Option Char
deriving Repr, DecidableEq

/-- The empty query `{}`. -/
def MongoQuery.empty : MongoQuery := ⟨none, none, none, none, none⟩

/-- The per-record conjunction of checks the `memFind` loop accumulates in
`ok`.  The regex test is a case-insensitive containment of the (escaped,
hence literal) character in the raw value. -/
def recMatches (q : MongoQuery) (r : StringRecord) : Bool :=
  (match q.pal with | none => true | some b => r.properties.is_palindrome == b) &&
  (match q.wc with | none => true | some n => (r.properties.word_count : Int) == n) &&
  (match q.gte with | none => true | some g => g ≤ (r.properties.length : Int)) &&
  (match q.lte with | none => true | some l => (r.properties.length : Int) ≤ l) &&
  (match q.regexChar with
   | none => true
   | some ch => r.value.data.any (fun c => jsLower c == jsLower ch))

/-- `memFind(query)`: one pass over the store in insertion order, keeping
the records every present filter accepts. -/
def memFind (q : MongoQuery) (store : Store) : List StringRecord :=
  store.filter (recMatches q)

/-- `memFindOne(id)` / `findOneById`. -/
def memFindOne (id : String) (store : Store) : Option StringRecord :=
  store.find? (fun r => r.id == id)

/-- `memDeleteOne(id)`: `Map.delete` semantics, reporting whether the key
existed. -/
def memDeleteOne (id : String) (store : Store) : Nat × Store :=
  if store.any (fun r => r.id == id) then
    (1, store.filter (fun r => ¬ r.id == id))
  else (0, store)

/-! ## Request handlers -/

/-- The `value` field of a POST body: absent, present but not a string, or
a string. -/
inductive BodyValue where
  | missing : BodyValue
  | nonString : BodyValue
  | str (s : String) : BodyValue
deriving Repr, DecidableEq

/-- Outcome of `POST /strings`. -/
inductive PostResult where
  | created (r : StringRecord) : PostResult
  | badRequest : PostResult
  | unprocessable : PostResult
  | conflict : PostResult
deriving Repr, DecidableEq

/-- HTTP status of a POST outcome. -/
def PostResult.status : PostResult → Nat
  | .created _ => 201
  | .badRequest => 400
  | .unprocessable => 422
  | .conflict => 409

/-- `POST /strings` as written in `src/server.js` (lines 158–187) over the
in-memory backend: after validation the handler calls `db.insert`, which is
`memInsert` — an unconditional `Map.set` that never throws — and returns
201.  The 409 branch of the `catch` block is unreachable on this backend. -/
def postStringsServer (body : BodyValue) (now : Nat) (store : Store) :
    PostResult × Store :=
  match body with
  | .missing => (.badRequest, store)
  | .nonString => (.unprocessable, store)
  | .str value =>
    let properties := computeStringProperties value
    let id := properties.sha256_hash
    let doc : StringRecord := ⟨id, value, properties, now⟩
    (.created doc, mapSet store doc)

/-- `POST /strings` as written in `src/unnamed/part_001` (lines 146–193):
the in-memory branch checks `inMemoryStore.has(id)` first and answers 409
without touching the store. -/
def postStringsV2 (body : BodyValue) (now : Nat) (store : Store) :
    PostResult × Store :=
  match body with
  | .missing => (.badRequest, store)
  | .nonString => (.unprocessable, store)
  | .str value =>
    let properties := computeStringProperties value
    let id := properties.sha256_hash
    if store.any (fun x => x.id == id) then (.conflict, store)
    else
      let doc : StringRecord := ⟨id, value, properties, now⟩
      (.created doc, store ++ [doc])

/-- `DELETE /strings/:stringValue`: hash the path value, delete by id,
204 on success and 404 when nothing was deleted. -/
def deleteString (sv : String) (store : Store) : Nat × Store :=
  let (deletedCount, store2) := memDeleteOne (calculateHash sv) store
  if deletedCount = 0 then (404, store) else (204, store2)

/-- `GET /strings/:stringValue`: hash the path value and look it up. -/
def getOneString (sv : String) (store : Store) : Option StringRecord :=
  memFindOne (calculateHash sv) store

/-- Outcome of `GET /strings/filter-by-natural-language`. -/
inductive NlResult where
  | ok (data : List StringRecord) (parsed : ParsedFilters) : NlResult
  | badRequest (message : String) : NlResult
deriving Repr, DecidableEq

/-- HTTP status of a natural-language outcome. -/
def NlResult.status : NlResult → Nat
  | .ok _ _ => 200
  | .badRequest _ => 400

/-- The `dbQuery` the natural-language endpoint builds from its parsed
filters (lines 223–230): no `$lte` entry is ever produced. -/
def nlQueryToMongo (p : ParsedFilters) : MongoQuery :=
  { pal := p.is_palindrome
    wc := p.word_count.map (fun n => (n : Int))
    gte := p.min_length.map (fun n => (n : Int))
    lte := none
    regexChar := p.contains_character }

/-- `GET /strings/filter-by-natural-language` (lines 204–242): 400 when the
`query` parameter is absent or falsy (the empty string), 400 when no cue
fires, otherwise `db.find` on the derived query. -/
def filterByNaturalLanguage (query : Option String) (store : Store) : NlResult :=
  match query with
  | none => .badRequest "Missing query parameter"
  | some q =>
    if q.isEmpty then .badRequest "Missing query parameter"
    else
      let parsed := parseNLQuery q
      if parsed.isEmpty then .badRequest "Unable to parse natural language query"
      else .ok (memFind (nlQueryToMongo parsed) store) parsed

/-- The optional query parameters of `GET /strings`, each a raw string as
express delivers it. -/
structure GetParams where
  is_palindrome : Option String
  min_length : Option String
  max_length : Option String
  word_count : Option String
  contains_character : Option String
deriving Repr, DecidableEq

/-- `GET /strings` with no parameters. -/
def GetParams.none' : GetParams := ⟨none, none, none, none, none⟩

/-- Step 5 of the `GET /strings` boundary validation:
`contains_character` must be a one-character string. -/
def validateCc (p : GetParams) (q : MongoQuery) : Except String MongoQuery :=
  match p.contains_character with
  | none => .ok q
  | some s =>
    match s.data with
    | [c] => .ok { q with regexChar := some c }
    | _ => .error "contains_character must be a single character"

/-- Step 4: `word_count` must coerce to an integer under `Number`. -/
def validateWc (p : GetParams) (q : MongoQuery) : Except String MongoQuery :=
  match p.word_count with
  | none => validateCc p q
  | some s =>
    if jsIsNaNStr s ∨ ¬ (jsNumber s).isIntegerVal then
      .error "word_count must be integer"
    else validateCc p { q with wc := some (jsNumber s).toInt }

/-- Step 3: `max_length` must coerce to an integer under `Number`. -/
def validateMax (p : GetParams) (q : MongoQuery) : Except String MongoQuery :=
  match p.max_length with
  | none => validateWc p q
  | some s =>
    if jsIsNaNStr s ∨ ¬ (jsNumber s).isIntegerVal then
      .error "max_length must be integer"
    else validateWc p { q with lte := some (jsNumber s).toInt }

/-- Step 2: `min_length` must coerce to an integer under `Number`. -/
def validateMin (p : GetParams) (q : MongoQuery) : Except String MongoQuery :=
  match p.min_length with
  | none => validateMax p q
  | some s =>
    if jsIsNaNStr s ∨ ¬ (jsNumber s).isIntegerVal then
      .error "min_length must be integer"
    else validateMax p { q with gte := some (jsNumber s).toInt }

/-- The boundary validation of `GET /strings` (lines 245–292), performed
parameter by parameter in source order with an early 400 return, building
the `dbQuery` as it goes: step 1 checks `is_palindrome` is the exact string
`true` or `false`, and a numeric parameter passes exactly when
`!(isNaN(x) || !Number.isInteger(Number(x)))`. -/
def validateGetParams (p : GetParams) : Except String MongoQuery :=
  match p.is_palindrome with
  | none => validateMin p MongoQuery.empty
  | some s =>
    if s ≠ "true" ∧ s ≠ "false" then
      .error "is_palindrome must be \x22true\x22 or \x22false\x22"
    else validateMin p { MongoQuery.empty with pal := some (s = "true") }

/-- Outcome of `GET /strings`. -/
inductive GetAllResult where
  | ok (data : List StringRecord) : GetAllResult
  | badRequest (message : String) : GetAllResult
deriving Repr, DecidableEq

/-- HTTP status of a `GET /strings` outcome. -/
def GetAllResult.status : GetAllResult → Nat
  | .ok _ => 200
  | .badRequest _ => 400

/-- `GET /strings`: validate at the boundary, then a single `db.find`. -/
def getAllStrings (p : GetParams) (store : Store) : GetAllResult :=
  match validateGetParams p with
  | .error msg => .badRequest msg
  | .ok q => .ok (memFind q store)

/-! ## The service as a state machine -/

/-- One inbound request, tagged with the instant `new Date()` would
observe. -/
inductive Request where
  | post (body : BodyValue) (now : Nat) : Request
  | deleteReq (sv : String) : Request
  | getNL (query : Option String) : Request
  | getAll (p : GetParams) : Request
  | getOne (sv : String) : Request
  | health : Request
deriving Repr, DecidableEq

/-- One response. -/
inductive Response where
  | postR (r : PostResult) : Response
  | deleteR (status : Nat) : Response
  | nlR (r : NlResult) : Response
  | getAllR (r : GetAllResult) : Response
  | getOneR (r : Option StringRecord) : Response
  | healthR (count : Nat) : Response
deriving Repr, DecidableEq

/-- Whether a request is one of the read-only endpoints. -/
def Request.isRead : Request → Bool
  | .getNL _ => true
  | .getAll _ => true
  | .getOne _ => true
  | .health => true
  | _ => false

/-- Handle one request against the in-memory store, as `src/server.js`
routes it (`v2Post := true` selects the `src/unnamed/part_001` POST
handler instead; every other route is identical in the two variants). -/
def step (v2Post : Bool) (req : Request) (store : Store) : Response × Store :=
  match req with
  | .post body now =>
    let (r, st) := (if v2Post then postStringsV2 else postStringsServer) body now store
    (.postR r, st)
  | .deleteReq sv =>
    let (s, st) := deleteString sv store
    (.deleteR s, st)
  | .getNL q => (.nlR (filterByNaturalLanguage q store), store)
  | .getAll p => (.getAllR (getAllStrings p store), store)
  | .getOne sv => (.getOneR (getOneString sv store), store)
  | .health => (.healthR store.length, store)

/-- Run a request sequence from a given store. -/
def runAll (v2Post : Bool) : List Request → Store → Store
  | [], st => st
  | r :: rest, st => runAll v2Post rest (step v2Post r st).2

/-! ## Specification-side definitions

Independent formulations of what the specification's sentences say, to be
compared with the embedded code above. -/

/-- Number of words as the spec counts them: the number of positions that
start a maximal nonempty non-whitespace run, tracked with an
inside-a-word flag. -/
def runsCount : Bool → List Char → Nat
  | _, [] => 0
  | inWord, c :: cs =>
    if isWsChar c then runsCount false cs
    else (if inWord then 0 else 1) + runsCount true cs

/-- The spec's per-record filter conjunction: every present filter field
matches — exact boolean equality, exact word-count equality, inclusive
length bounds, case-insensitive character containment in the raw value —
and absent fields impose no constraint. -/
def specMatches (q : MongoQuery) (r : StringRecord) : Prop :=
  (∀ b ∈ q.pal, r.properties.is_palindrome = b) ∧
  (∀ n ∈ q.wc, (r.properties.word_count : Int) = n) ∧
  (∀ g ∈ q.gte, g ≤ (r.properties.length : Int)) ∧
  (∀ l ∈ q.lte, (r.properties.length : Int) ≤ l) ∧
  (∀ ch ∈ q.regexChar, ∃ c ∈ r.value.data, jsLower c = jsLower ch)

instance (q : MongoQuery) (r : StringRecord) : Decidable (specMatches q r) := by
  unfold specMatches; infer_instance

/-- An integer numeral in the plain sense: an optional sign followed by at
least one decimal digit. -/
def isIntegerLiteral (s : String) : Bool :=
  let body : List Char :=
    match s.data with
    | '+' :: t => t
    | '-' :: t => t
    | t => t
  !body.isEmpty && body.all isDigitChar

/-- A numeric parameter the code accepts: its JS `Number` coercion is a
finite integer. -/
def jsIntegerOk (s : String) : Bool :=
  (jsNumber s).isIntegerVal

/-- The malformed-parameter conditions of `GET /strings`, stated
declaratively: a present `is_palindrome` that is neither `"true"` nor
`"false"`, a present numeric parameter whose `Number` coercion is not a
finite integer, or a present `contains_character` that is not exactly one
character. -/
def malformedGetParams (p : GetParams) : Prop :=
  (∃ s, p.is_palindrome = some s ∧ s ≠ "true" ∧ s ≠ "false") ∨
  (∃ s, p.min_length = some s ∧ jsIntegerOk s = false) ∨
  (∃ s, p.max_length = some s ∧ jsIntegerOk s = false) ∨
  (∃ s, p.word_count = some s ∧ jsIntegerOk s = false) ∨
  (∃ s, p.contains_character = some s ∧ s.length ≠ 1)

/-- The invariant of claim C9: every stored record is content-addressed. -/
def storeInv (st : Store) : Prop :=
  ∀ r ∈ st, r.id = calculateHash r.value

/-- The 26 lowercase ASCII letters. -/
def lowercaseLetters : List Char := "abcdefghijklmnopqrstuvwxyz".data

/-- One shape of the claim's contains-letter pattern: the literal prefix
`p` followed immediately by the captured lowercase letter. -/
def matchShape (p : String) (cs : List Char) : Option Char :=
  match dropLit p.data cs with
  | some (c :: _) => if isLowerAlpha c then some c else none
  | _ => none

/-- The claim's contains-letter pattern after `contain[s]` and a space:
`the letter`, `character`, or nothing, then a space, then the letter.
The three alternatives are mutually exclusive — their first characters
are `t`, `c` and a space — so no ordering is involved. -/
def specContainsTail (cs : List Char) : Option Char :=
  (matchShape "the letter " cs).orElse fun _ =>
    (matchShape "character " cs).orElse fun _ =>
      matchShape " " cs

/-- The claim's contains-letter pattern anchored at one position: one of
the six mutually exclusive literal shapes `contain[s]` + space +
(`the letter`/`character`/nothing) + space, followed by the captured
lowercase letter. -/
def specContainsAt (cs : List Char) : Option Char :=
  (matchShape "contains the letter " cs).orElse fun _ =>
    (matchShape "contain the letter " cs).orElse fun _ =>
      (matchShape "contains character " cs).orElse fun _ =>
        (matchShape "contain character " cs).orElse fun _ =>
          (matchShape "contains  " cs).orElse fun _ =>
            matchShape "contain  " cs

/-- The claim's contains-letter cue over a whole (lowercased) text: the
letter at the leftmost position where a shape matches. -/
def specFindContains : List Char → Option Char
  | [] => none
  | c :: cs =>
    match specContainsAt (c :: cs) with
    | some x => some x
    | none => specFindContains cs

/-- Build the record `POST /strings` would store for `value` at instant
`now`. -/
def mkRecord (value : String) (now : Nat) : StringRecord :=
  let properties := computeStringProperties value
  ⟨properties.sha256_hash, value, properties, now⟩

/-- A stored record of length 3 (spec §8's filter-combination scenario). -/
def sampleRec3 : StringRecord := mkRecord "abc" 0

/-- A stored record of length 5. -/
def sampleRec5 : StringRecord := mkRecord "hello" 1

/-- A stored record of length 7. -/
def sampleRec7 : StringRecord := mkRecord "longest" 2

/-! ## Theorems -/

set_option maxRecDepth 100000

/-- C3: the natural-language parser maps
"strings longer than 4 that contain the letter a" to exactly
`{min_length: 5, contains_character: 'a'}` and "single word palindromes"
to exactly `{word_count: 1, is_palindrome: true}`; the first query shows
two cues of one query combining cumulatively into a single filter set,
with every other field absent. -/
theorem C3_nl_parse_examples :
    parseNLQuery "strings longer than 4 that contain the letter a" =
      { is_palindrome := none, word_count := none, min_length := some 5,
        contains_character := some 'a' } ∧
    parseNLQuery "single word palindromes" =
      { is_palindrome := some true, word_count := some 1, min_length := none,
        contains_character := none } := by
  constructor <;> decide

/-- C2, counterexample: the claim includes the bare forms "contains a" and
"contain z" (single space before the letter), but the regex demands a
space both after `contain[s]` and before the letter, so neither query sets
`contains_character` at all — and "contains a" in fact parses to nothing. -/
theorem C2_counterexample_bare_forms :
    (parseNLQuery "contains a").contains_character = none ∧
    (parseNLQuery "contain z").contains_character = none ∧
    (parseNLQuery "contains a").isEmpty = true := by
  decide

/-- `dropLit` strips an actual prefix. -/
theorem dropLit_self_append (p r : List Char) : dropLit p (p ++ r) = some r := by
  induction p with
  | nil => rfl
  | cons x xs ih => simp [dropLit, ih]

/-- `dropLit` succeeds exactly on actual prefixes. -/
theorem dropLit_some_iff (p cs r : List Char) :
    dropLit p cs = some r ↔ cs = p ++ r := by
  induction p generalizing cs with
  | nil => simp [dropLit, eq_comm]
  | cons x xs ih =>
    cases cs with
    | nil => simp [dropLit]
    | cons y ys =>
      simp only [dropLit, List.cons_append, List.cons.injEq]
      by_cases h : y = x <;> simp [h, ih]

/-- `dropLit` of a concatenated literal factors through its parts. -/
theorem dropLit_append (a b cs : List Char) :
    dropLit (a ++ b) cs = (dropLit a cs).bind (dropLit b) := by
  induction a generalizing cs with
  | nil => simp [dropLit]
  | cons x xs ih =>
    cases cs with
    | nil => simp [dropLit]
    | cons y ys =>
      simp only [List.cons_append, dropLit]
      by_cases h : y = x <;> simp [h, ih]

/-- The implementation's backtracking tail matcher computes exactly the
spec's three-shape alternative. -/
theorem tryContainsTail_eq (cs : List Char) :
    tryContainsTail cs = specContainsTail cs := by
  cases h1 : dropLit "the letter".data cs with
  | some rest =>
    have hcs : cs = "the letter".data ++ rest := (dropLit_some_iff _ _ _).mp h1
    subst hcs
    rcases rest with _ | ⟨r0, _ | ⟨c1, t⟩⟩
    · simp [tryContainsTail, specContainsTail, matchShape, dropLit, Option.orElse]
    · by_cases hr0 : r0 = ' ' <;>
        simp [tryContainsTail, specContainsTail, matchShape, dropLit, hr0, Option.orElse]
    · by_cases hr0 : r0 = ' '
      · subst hr0
        by_cases hc1 : isLowerAlpha c1 = true <;>
          simp [tryContainsTail, specContainsTail, matchShape, dropLit, hc1, Option.orElse]
      · simp [tryContainsTail, specContainsTail, matchShape, dropLit, hr0, Option.orElse]
  | none =>
    cases h2 : dropLit "character".data cs with
    | some rest2 =>
      have hcs : cs = "character".data ++ rest2 := (dropLit_some_iff _ _ _).mp h2
      subst hcs
      rcases rest2 with _ | ⟨r0, _ | ⟨c1, t⟩⟩
      · simp [tryContainsTail, specContainsTail, matchShape, dropLit, Option.orElse]
      · by_cases hr0 : r0 = ' ' <;>
          simp [tryContainsTail, specContainsTail, matchShape, dropLit, hr0, Option.orElse]
      · by_cases hr0 : r0 = ' '
        · subst hr0
          by_cases hc1 : isLowerAlpha c1 = true <;>
            simp [tryContainsTail, specContainsTail, matchShape, dropLit, hc1, Option.orElse]
        · simp [tryContainsTail, specContainsTail, matchShape, dropLit, hr0, Option.orElse]
    | none =>
      have h1s : dropLit "the letter ".data cs = none := by
        rw [show ("the letter ").data = ("the letter").data ++ (" ").data from rfl,
          dropLit_append, h1]
        rfl
      have h2s : dropLit "character ".data cs = none := by
        rw [show ("character ").data = ("character").data ++ (" ").data from rfl,
          dropLit_append, h2]
        rfl
      simp only [tryContainsTail, specContainsTail, matchShape, h1, h2, h1s, h2s]
      rcases cs with _ | ⟨c0, _ | ⟨c1, t⟩⟩
      · simp [dropLit, Option.orElse]
      · by_cases h0 : c0 = ' ' <;> simp [dropLit, h0, Option.orElse]
      · by_cases h0 : c0 = ' '
        · subst h0
          by_cases hc1 : isLowerAlpha c1 = true <;> simp [dropLit, hc1, Option.orElse]
        · simp [dropLit, h0, Option.orElse]

/-- Trailing empty alternative of an option chain. -/
theorem orElse_none {α : Type} (o : Option α) :
    (o.orElse fun _ => none) = o := by
  cases o <;> rfl

/-- The implementation's anchored contains-letter matcher computes exactly
the spec's six-shape alternative. -/
theorem tryContainsAt_eq (cs : List Char) :
    tryContainsAt cs = specContainsAt cs := by
  cases h0 : dropLit "contain".data cs with
  | none =>
    have e1 : dropLit "contains the letter ".data cs = none := by
      rw [show ("contains the letter ").data =
        ("contain").data ++ ("s the letter ").data from rfl, dropLit_append, h0]
      rfl
    have e2 : dropLit "contain the letter ".data cs = none := by
      rw [show ("contain the letter ").data =
        ("contain").data ++ (" the letter ").data from rfl, dropLit_append, h0]
      rfl
    have e3 : dropLit "contains character ".data cs = none := by
      rw [show ("contains character ").data =
        ("contain").data ++ ("s character ").data from rfl, dropLit_append, h0]
      rfl
    have e4 : dropLit "contain character ".data cs = none := by
      rw [show ("contain character ").data =
        ("contain").data ++ (" character ").data from rfl, dropLit_append, h0]
      rfl
    have e5 : dropLit "contains  ".data cs = none := by
      rw [show ("contains  ").data =
        ("contain").data ++ ("s  ").data from rfl, dropLit_append, h0]
      rfl
    have e6 : dropLit "contain  ".data cs = none := by
      rw [show ("contain  ").data =
        ("contain").data ++ ("  ").data from rfl, dropLit_append, h0]
      rfl
    simp [tryContainsAt, specContainsAt, matchShape, h0, e1, e2, e3, e4, e5, e6,
      Option.orElse]
  | some rest =>
    have hcs : cs = "contain".data ++ rest := (dropLit_some_iff _ _ _).mp h0
    subst hcs
    rcases rest with _ | ⟨x, _ | ⟨y, r2⟩⟩
    · simp [tryContainsAt, specContainsAt, matchShape, dropLit, Option.orElse]
    · by_cases hx : x = ' ' <;>
        simp [tryContainsAt, specContainsAt, matchShape, dropLit, hx,
          tryContainsTail, specContainsTail, Option.orElse]
    · by_cases hx : x = 's'
      · subst hx
        by_cases hy : y = ' '
        · subst hy
          have lhs : tryContainsAt ("contain".data ++ 's' :: ' ' :: r2) =
              tryContainsTail r2 := by
            simp only [tryContainsAt, dropLit_self_append]
            cases h : tryContainsTail r2 <;> simp
          have rhs : specContainsAt ("contain".data ++ 's' :: ' ' :: r2) =
              specContainsTail r2 := by
            simp [specContainsAt, specContainsTail, matchShape, dropLit,
              orElse_none]
          rw [lhs, rhs, tryContainsTail_eq]
        · have lhs : tryContainsAt ("contain".data ++ 's' :: y :: r2) = none := by
            simp only [tryContainsAt, dropLit_self_append]
            split
            · simp_all
            · simp_all
            · rfl
          rw [lhs]
          simp [specContainsAt, matchShape, dropLit, hy, Option.orElse]
      · by_cases hxs : x = ' '
        · subst hxs
          have lhs : tryContainsAt ("contain".data ++ ' ' :: y :: r2) =
              tryContainsTail (y :: r2) := by
            simp only [tryContainsAt, dropLit_self_append]
          have rhs : specContainsAt ("contain".data ++ ' ' :: y :: r2) =
              specContainsTail (y :: r2) := by
            simp [specContainsAt, specContainsTail, matchShape, dropLit,
              orElse_none]
          rw [lhs, rhs, tryContainsTail_eq]
        · have lhs : tryContainsAt ("contain".data ++ x :: y :: r2) = none := by
            simp only [tryContainsAt, dropLit_self_append]
            split
            · simp_all
            · simp_all
            · rfl
          rw [lhs]
          simp [specContainsAt, matchShape, dropLit, hx, hxs, Option.orElse]

/-- The implementation's leftmost scan computes the spec's leftmost
shape match. -/
theorem findContains_eq (l : List Char) :
    findContains l = specFindContains l := by
  induction l with
  | nil => rfl
  | cons c cls ih =>
    rw [findContains, specFindContains, tryContainsAt_eq, ih]

/-- C2, amended: for every query, the parser's `contains_character` is
exactly the letter at the leftmost occurrence, in the lowercased text, of
the shape `contain[s]` + space + (`the letter`/`character`/nothing) +
space + letter; in particular every query of the form
`contain[s] <mid><letter>` with `<mid>` one of "the letter ",
"character ", or a second space gets that letter, including the
no-`s` form, uppercase text and embedded occurrences.  Bare single-space
forms (see the counterexample) match nothing. -/
theorem C2_contains_letter_parsing :
    (∀ q : String, (parseNLQuery q).contains_character =
        specFindContains (lowerList q.data)) ∧
    (∀ v ∈ ["contains ", "contain "], ∀ mid ∈ ["the letter ", "character ", " "],
      ∀ c ∈ lowercaseLetters,
        (parseNLQuery (v ++ mid ++ String.singleton c)).contains_character =
          some c) ∧
    (parseNLQuery "Queries that CONTAIN the letter Z anywhere").contains_character =
      some 'z' := by
  refine ⟨fun q => ?_, by decide, by decide⟩
  simp only [parseNLQuery]
  exact findContains_eq (lowerList q.data)

/-- Witness for C2's amended theorem at the no-`s` form
`"contain the letter q"`. -/
theorem C2_contains_letter_parsing_witness :
    (parseNLQuery ("contain " ++ "the letter " ++ String.singleton 'q')).contains_character =
      some 'q' :=
  C2_contains_letter_parsing.2.1 "contain " (by decide) "the letter " (by decide)
    'q' (by decide)

/-- C7: `isPalindrome` lowercases, strips characters outside the ASCII
alphanumeric range, and checks the result is a palindrome (equal to its
own reverse); `racecar` and `Race Car!` are palindromes, `hello` is not,
and the empty string is one. -/
theorem C7_palindrome_spec :
    (∀ s : String, isPalindrome s = true ↔
      List.Palindrome ((lowerList s.data).filter isLowerAlnum)) ∧
    isPalindrome "racecar" = true ∧ isPalindrome "Race Car!" = true ∧
    isPalindrome "hello" = false ∧ isPalindrome "" = true := by
  refine ⟨fun s => ?_, by decide, by decide, by decide, by decide⟩
  rw [List.Palindrome.iff_reverse_eq]
  simp only [isPalindrome, beq_iff_eq]
  exact eq_comm

/-- The splitter emits one token per maximal non-whitespace run, plus the
pending token when one is open. -/
theorem wsTokensGo_length (l : List Char) :
    ∀ acc, (wsTokensGo l acc).length =
      (if acc.isEmpty then 0 else 1) + runsCount (!acc.isEmpty) l := by
  induction l with
  | nil =>
    intro acc
    cases acc <;> simp [wsTokensGo, runsCount]
  | cons c cs ih =>
    intro acc
    cases hw : isWsChar c <;> cases acc <;>
      (simp [wsTokensGo, runsCount, hw, ih]; try omega)

/-- Every token the splitter emits is nonempty. -/
theorem wsTokensGo_ne_nil (l : List Char) :
    ∀ acc t, t ∈ wsTokensGo l acc → t.length > 0 := by
  induction l with
  | nil =>
    intro acc t ht
    cases acc with
    | nil => simp [wsTokensGo] at ht
    | cons a as =>
      simp [wsTokensGo] at ht
      simp [ht]
  | cons c cs ih =>
    intro acc t ht
    cases hw : isWsChar c
    · rw [wsTokensGo, hw] at ht
      simp only [Bool.false_eq_true, if_false] at ht
      exact ih _ t ht
    · rw [wsTokensGo, hw] at ht
      simp only [if_true] at ht
      cases acc with
      | nil => exact ih _ t (by simpa using ht)
      | cons a as =>
        simp only [List.isEmpty_cons, Bool.false_eq_true, if_false,
          List.mem_cons] at ht
        rcases ht with rfl | ht
        · simp
        · exact ih _ t ht

/-- `countWords` equals the spec-side run count of the trimmed value. -/
theorem countWords_eq_runsCount (s : String) :
    countWords s = runsCount false (jsTrim s.data) := by
  unfold countWords wsTokens
  rw [List.filter_eq_self.mpr
    (fun t ht => by simpa using wsTokensGo_ne_nil _ _ t ht)]
  simpa using wsTokensGo_length (jsTrim s.data) []

/-- C8: `wordCount` counts the nonempty tokens obtained by trimming and
splitting on whitespace runs — equivalently, the number of maximal
non-whitespace runs of the trimmed value; `"  a  b   c "` has 3 words, the
empty string 0, and any all-whitespace string 0. -/
theorem C8_word_count :
    (∀ s : String, countWords s = runsCount false (jsTrim s.data)) ∧
    countWords "  a  b   c " = 3 ∧ countWords "" = 0 ∧
    (∀ s : String, (∀ c ∈ s.data, isWsChar c = true) → countWords s = 0) := by
  refine ⟨countWords_eq_runsCount, by decide, by decide, fun s h => ?_⟩
  rw [countWords_eq_runsCount]
  have h1 : s.data.dropWhile isWsChar = [] :=
    List.dropWhile_eq_nil_iff.mpr (by simpa using h)
  have htrim : jsTrim s.data = [] := by
    unfold jsTrim
    rw [h1]
    simp
  rw [htrim]
  rfl

/-- Witness for C8 at the all-whitespace string `" \t "`. -/
theorem C8_word_count_witness : countWords " \t " = 0 :=
  C8_word_count.2.2.2 " \t " (by decide)

/-- C4: when no cue matches the lowercased query — no "palindrom"
substring, no "single word" substring, no "longer than N" match and no
contains-letter match — the natural-language endpoint answers 400, and the
response does not depend on the store at all (no filter is evaluated; the
query is never treated as an empty filter set). -/
theorem C4_unparseable_is_rejected :
    ∀ (q : String) (st : Store),
      includesSub "palindrom".data (lowerList q.data) = false →
      includesSub "single word".data (lowerList q.data) = false →
      findLonger (lowerList q.data) = none →
      findContains (lowerList q.data) = none →
      (filterByNaturalLanguage (some q) st).status = 400 ∧
        ∀ st2 : Store, filterByNaturalLanguage (some q) st =
          filterByNaturalLanguage (some q) st2 := by
  intro q st h1 h2 h3 h4
  have hp : (parseNLQuery q).isEmpty = true := by
    simp [parseNLQuery, ParsedFilters.isEmpty, h1, h2, h3, h4]
  cases he : q.isEmpty
  · constructor
    · simp [filterByNaturalLanguage, he, hp, NlResult.status]
    · intro st2
      simp [filterByNaturalLanguage, he, hp]
  · constructor
    · simp [filterByNaturalLanguage, he, NlResult.status]
    · intro st2
      simp [filterByNaturalLanguage, he]

/-- Witness for C4 at the spec's example query `"banana"`. -/
theorem C4_unparseable_is_rejected_witness :
    (filterByNaturalLanguage (some "banana") []).status = 400 :=
  (C4_unparseable_is_rejected "banana" [] (by decide) (by decide) (by decide)
    (by decide)).1

/-- The boolean conjunction `memFind` accumulates coincides with the
spec's declarative per-field conjunction. -/
theorem recMatches_iff (q : MongoQuery) (r : StringRecord) :
    recMatches q r = true ↔ specMatches q r := by
  obtain ⟨pal, wc, gte, lte, rc⟩ := q
  unfold recMatches specMatches
  cases pal <;> cases wc <;> cases gte <;> cases lte <;> cases rc <;>
    simp [List.any_eq_true, and_assoc]

/-- C5: the evaluator returns exactly the stored records (in store order)
satisfying every present filter field — boolean equality for
`is_palindrome`, exact equality for `word_count`, inclusive bounds on the
length, case-insensitive containment for `contains_character` — absent
fields impose no constraint (the empty query returns the whole store),
and on records of lengths 3, 5, 7 the filter `min_length = 5` selects
exactly the length-5 and length-7 records. -/
theorem C5_filter_evaluator :
    (∀ (q : MongoQuery) (st : Store) (r : StringRecord),
        r ∈ memFind q st ↔ r ∈ st ∧ specMatches q r) ∧
    (∀ st : Store, memFind MongoQuery.empty st = st) ∧
    memFind { MongoQuery.empty with gte := some 5 }
        [sampleRec3, sampleRec5, sampleRec7] = [sampleRec5, sampleRec7] := by
  refine ⟨fun q st r => ?_, fun st => ?_, by decide⟩
  · rw [memFind, List.mem_filter, recMatches_iff]
  · simp [memFind, MongoQuery.empty, recMatches]

/-- The code's numeric rejection test
`isNaN(x) || !Number.isInteger(Number(x))` fires exactly when the `Number`
coercion is not a finite integer. -/
theorem reject_iff_not_integerOk (s : String) :
    ((jsIsNaNStr s = true ∨ ¬ (jsNumber s).isIntegerVal = true) ↔
      jsIntegerOk s = false) := by
  unfold jsIsNaNStr jsIntegerOk
  cases h : jsNumber s <;> simp [JsNum.isIntegerVal, h]

/-- `String.length` is the length of the character list. -/
theorem strLength_data (s : String) : s.length = s.data.length := rfl

/-- Step 5 of the validation errs exactly on a present multi- or
zero-character `contains_character`. -/
theorem validateCc_error_iff (p : GetParams) (q : MongoQuery) :
    (∃ m, validateCc p q = .error m) ↔
      (∃ s, p.contains_character = some s ∧ s.length ≠ 1) := by
  unfold validateCc
  split
  · simp_all
  · split
    · simp_all
      rename_i hdata
      rw [strLength_data, hdata]
      rfl
    · simp_all
      rename_i str heq x hne
      rw [strLength_data]
      cases hd : str.data with
      | nil => simp
      | cons a t =>
        cases t with
        | nil => exact absurd hd (by simpa using hne a)
        | cons b t2 => simp

/-- Steps 4–5 of the validation err exactly on a malformed `word_count` or
`contains_character`. -/
theorem validateWc_error_iff (p : GetParams) (q : MongoQuery) :
    (∃ m, validateWc p q = .error m) ↔
      ((∃ s, p.word_count = some s ∧ jsIntegerOk s = false) ∨
       (∃ s, p.contains_character = some s ∧ s.length ≠ 1)) := by
  unfold validateWc
  cases hwc : p.word_count with
  | none => simp [validateCc_error_iff]
  | some s =>
    by_cases h : jsIsNaNStr s = true ∨ ¬ (jsNumber s).isIntegerVal = true
    · have hbad : jsIntegerOk s = false := (reject_iff_not_integerOk s).mp h
      simp only [if_pos h]
      simp [hbad]
    · have hok : ¬ jsIntegerOk s = false := fun hf =>
        h ((reject_iff_not_integerOk s).mpr hf)
      simp only [if_neg h]
      simp [validateCc_error_iff, hok]

/-- Steps 3–5 of the validation err exactly on a malformed `max_length`,
`word_count` or `contains_character`. -/
theorem validateMax_error_iff (p : GetParams) (q : MongoQuery) :
    (∃ m, validateMax p q = .error m) ↔
      ((∃ s, p.max_length = some s ∧ jsIntegerOk s = false) ∨
       (∃ s, p.word_count = some s ∧ jsIntegerOk s = false) ∨
       (∃ s, p.contains_character = some s ∧ s.length ≠ 1)) := by
  unfold validateMax
  cases hmx : p.max_length with
  | none => simp [validateWc_error_iff]
  | some s =>
    by_cases h : jsIsNaNStr s = true ∨ ¬ (jsNumber s).isIntegerVal = true
    · have hbad : jsIntegerOk s = false := (reject_iff_not_integerOk s).mp h
      simp only [if_pos h]
      simp [hbad]
    · have hok : ¬ jsIntegerOk s = false := fun hf =>
        h ((reject_iff_not_integerOk s).mpr hf)
      simp only [if_neg h]
      simp [validateWc_error_iff, hok]

/-- Steps 2–5 of the validation err exactly on a malformed `min_length`,
`max_length`, `word_count` or `contains_character`. -/
theorem validateMin_error_iff (p : GetParams) (q : MongoQuery) :
    (∃ m, validateMin p q = .error m) ↔
      ((∃ s, p.min_length = some s ∧ jsIntegerOk s = false) ∨
       (∃ s, p.max_length = some s ∧ jsIntegerOk s = false) ∨
       (∃ s, p.word_count = some s ∧ jsIntegerOk s = false) ∨
       (∃ s, p.contains_character = some s ∧ s.length ≠ 1)) := by
  unfold validateMin
  cases hmn : p.min_length with
  | none => simp [validateMax_error_iff]
  | some s =>
    by_cases h : jsIsNaNStr s = true ∨ ¬ (jsNumber s).isIntegerVal = true
    · have hbad : jsIntegerOk s = false := (reject_iff_not_integerOk s).mp h
      simp only [if_pos h]
      simp [hbad]
    · have hok : ¬ jsIntegerOk s = false := fun hf =>
        h ((reject_iff_not_integerOk s).mpr hf)
      simp only [if_neg h]
      simp [validateMax_error_iff, hok]

/-- The whole `GET /strings` validation errs exactly on a malformed
parameter in the declarative sense. -/
theorem validateGetParams_error_iff (p : GetParams) :
    (∃ m, validateGetParams p = .error m) ↔ malformedGetParams p := by
  unfold validateGetParams malformedGetParams
  cases hp : p.is_palindrome with
  | none => simp [validateMin_error_iff]
  | some s =>
    by_cases h : s ≠ "true" ∧ s ≠ "false"
    · simp only [if_pos h]
      simp [h]
    · have h2 : ¬ (s ≠ "true" ∧ s ≠ "false") := h
      simp only [if_neg h]
      simp [validateMin_error_iff]
      tauto

/-- C6, counterexample: the empty string is not an integer numeral, yet
`GET /strings?min_length=` is not rejected — JS `Number('')` is `0`, the
check passes, and the filter `length ≥ 0` is evaluated with status 200,
where the claim demands a 400. -/
theorem C6_counterexample_empty_min_length :
    isIntegerLiteral "" = false ∧
    (getAllStrings { GetParams.none' with min_length := some "" } []).status = 200 ∧
    getAllStrings { GetParams.none' with min_length := some "" } [sampleRec3] =
      .ok [sampleRec3] := by
  refine ⟨by decide, by decide, by decide⟩

/-- C6, amended: `GET /strings` validates before evaluating, and answers
400 exactly when a present `is_palindrome` is not the exact string "true"
or "false", a present numeric parameter's JS `Number` coercion is not a
finite integer, or a present `contains_character` is not exactly one
character; a 400 response never depends on the store (no filter is
evaluated).  Values such as `""`, `" 5 "` or `"1e2"` that `Number`
silently coerces to integers are accepted, not rejected. -/
theorem C6_validation_amended :
    ∀ (p : GetParams) (st : Store),
      ((getAllStrings p st).status = 400 ↔ malformedGetParams p) ∧
      ((getAllStrings p st).status = 400 →
        getAllStrings p st = getAllStrings p []) := by
  intro p st
  cases hv : validateGetParams p with
  | error m =>
    have hm : malformedGetParams p := (validateGetParams_error_iff p).mp ⟨m, hv⟩
    simp [getAllStrings, hv, GetAllResult.status, hm]
  | ok q =>
    have hm : ¬ malformedGetParams p := fun hmal => by
      rcases (validateGetParams_error_iff p).mpr hmal with ⟨m, hem⟩
      rw [hv] at hem
      cases hem
    simp [getAllStrings, hv, GetAllResult.status, hm]

/-- Witness for C6's amended theorem: `min_length = "x"` is malformed and
rejected with 400. -/
theorem C6_validation_amended_witness :
    (getAllStrings { GetParams.none' with min_length := some "x" } []).status = 400 :=
  (C6_validation_amended { GetParams.none' with min_length := some "x" } []).1.mpr
    (Or.inr (Or.inl ⟨"x", rfl, by decide⟩))

/-- C1 (code bug in `src/server.js`): on the in-memory backend `memInsert`
never throws, so posting the same value twice returns 201 both times and
the second insert overwrites the stored record (its `created_at` becomes
the second instant) — the 409 branch is dead code.  The
`src/unnamed/part_001` variant of the handler behaves as the claim states:
the duplicate gets 409 and the store is unchanged. -/
theorem C1_duplicate_post_overwrites :
    (postStringsServer (.str "hng") 1 []).1.status = 201 ∧
    (postStringsServer (.str "hng") 2 (postStringsServer (.str "hng") 1 []).2).1.status = 201 ∧
    ((postStringsServer (.str "hng") 2 (postStringsServer (.str "hng") 1 []).2).2.map
      (fun r => r.created_at)) = [2] ∧
    (postStringsV2 (.str "hng") 2 (postStringsServer (.str "hng") 1 []).2).1.status = 409 ∧
    (postStringsV2 (.str "hng") 2 (postStringsServer (.str "hng") 1 []).2).2 =
      (postStringsServer (.str "hng") 1 []).2 := by
  refine ⟨by decide, by decide, by decide, by decide, by decide⟩

/-- Members of `mapSet st doc` come from `st` or are `doc` itself. -/
theorem mapSet_mem {st : Store} {doc r : StringRecord}
    (h : r ∈ mapSet st doc) : r ∈ st ∨ r = doc := by
  unfold mapSet at h
  split at h
  · rcases List.mem_map.mp h with ⟨x, hx, hxr⟩
    by_cases hid : (x.id == doc.id) = true
    · rw [if_pos hid] at hxr
      exact Or.inr hxr.symm
    · rw [if_neg hid] at hxr
      exact Or.inl (hxr ▸ hx)
  · rcases List.mem_append.mp h with h1 | h1
    · exact Or.inl h1
    · simp at h1
      exact Or.inr h1

/-- Deletion only removes records. -/
theorem deleteString_subset (sv : String) (st : Store) :
    ∀ r ∈ (deleteString sv st).2, r ∈ st := by
  intro r hr
  by_cases hc : st.any (fun x => x.id == calculateHash sv) = true
  · simp only [deleteString, memDeleteOne, if_pos hc] at hr
    simp at hr
    exact hr.1
  · simp only [deleteString, memDeleteOne, if_neg hc] at hr
    simpa using hr

/-- Every handler preserves content addressing. -/
theorem step_preserves_inv (v2 : Bool) (req : Request) (st : Store)
    (h : storeInv st) : storeInv (step v2 req st).2 := by
  cases req with
  | post body now =>
    cases v2 with
    | false =>
      cases body with
      | missing => exact h
      | nonString => exact h
      | str value =>
        intro r hr
        simp only [step, postStringsServer] at hr
        rcases mapSet_mem hr with h1 | rfl
        · exact h r h1
        · rfl
    | true =>
      cases body with
      | missing => exact h
      | nonString => exact h
      | str value =>
        intro r hr
        simp only [step, if_true, postStringsV2] at hr
        by_cases hc : (st.any (fun x =>
            x.id == (computeStringProperties value).sha256_hash)) = true
        · rw [if_pos hc] at hr
          exact h r hr
        · rw [if_neg hc] at hr
          rcases List.mem_append.mp hr with h1 | h1
          · exact h r h1
          · simp at h1
            subst h1
            rfl
  | deleteReq sv =>
    intro r hr
    exact h r (deleteString_subset sv st r hr)
  | getNL q => exact h
  | getAll p => exact h
  | getOne sv => exact h
  | health => exact h

/-- Running any request sequence preserves content addressing. -/
theorem runAll_preserves_inv (v2 : Bool) (reqs : List Request) :
    ∀ st, storeInv st → storeInv (runAll v2 reqs st) := by
  induction reqs with
  | nil => intro st h; exact h
  | cons r rest ih =>
    intro st h
    exact ih _ (step_preserves_inv v2 r st h)

/-- C9: in every state reachable from the empty store — under either POST
variant — every stored record satisfies `id = sha256_hash(value)`
(insertion creates records this way and no operation rewrites `id` or
`value`), and a lookup by value addresses through the same hash: when
`GET /strings/:value` finds a record, that record's id is the hash of the
requested value. -/
theorem C9_content_addressing :
    (∀ (v2 : Bool) (reqs : List Request) (r : StringRecord),
        r ∈ runAll v2 reqs [] → r.id = calculateHash r.value) ∧
    (∀ (sv : String) (st : Store) (r : StringRecord),
        getOneString sv st = some r → r.id = calculateHash sv) := by
  constructor
  · intro v2 reqs r hr
    exact runAll_preserves_inv v2 reqs [] (fun x hx => absurd hx
      (List.not_mem_nil x)) r hr
  · intro sv st r hr
    have := List.find?_some hr
    simpa using this

/-- Witness for C9: after one POST of `"ab"`, the stored record is
content-addressed. -/
theorem C9_content_addressing_witness :
    (mkRecord "ab" 0).id = calculateHash (mkRecord "ab" 0).value :=
  C9_content_addressing.1 false [.post (.str "ab") 0] (mkRecord "ab" 0)
    (by decide)

/-- C10: every read endpoint — `GET /strings` with any parameters, the
natural-language filter with any query, `GET /strings/:value`, and the
health/count endpoint — leaves the store exactly as it was, whether or not
the request validates. -/
theorem C10_reads_leave_store_unchanged :
    ∀ (v2 : Bool) (req : Request) (st : Store),
      req.isRead = true → (step v2 req st).2 = st := by
  intro v2 req st h
  cases req with
  | post body now => simp [Request.isRead] at h
  | deleteReq sv => simp [Request.isRead] at h
  | getNL q => rfl
  | getAll p => rfl
  | getOne sv => rfl
  | health => rfl

/-- Witness for C10 at a natural-language read on a one-record store. -/
theorem C10_reads_leave_store_unchanged_witness :
    (step false (.getNL (some "palindromes")) [sampleRec5]).2 = [sampleRec5] :=
  C10_reads_leave_store_unchanged false (.getNL (some "palindromes"))
    [sampleRec5] (by decide)

end StrAnalyzer
